import Mathlib

/-!
Verification of the decoding-and-state core of the CAN diagnostics web server
(`can-web/main.go` and the core source file holding the store, reader loop and
CSV loader).  Go `float64` values are modelled as exact rationals extended with
`nan` and signed infinities (`GoFloat`): the claims under study depend only on
exact arithmetic, non-finiteness propagation and clamping, never on IEEE-754
rounding, so finite arithmetic is kept exact.  Go strings are Lean `String`s;
byte slices are `List Nat` with every byte below 256; `uint32`/`uint8` values
are `Nat`s kept in range by the parsers, exactly as in the source.
-/

/-- Model of a Go `float64`: an exact rational, `NaN`, or a signed infinity.
Finite arithmetic is exact (no rounding); `nan`/`inf` propagation follows IEEE
rules as Go implements them. -/
inductive GoFloat where
  | finite (q : ℚ)
  | nan
  | inf (pos : Bool)
deriving DecidableEq

/-- `math.IsNaN`. -/
def GoFloat.isNaN : GoFloat → Bool
  | .nan => true
  | _ => false

/-- `math.IsInf(v, 0)`: infinite of either sign. -/
def GoFloat.isInf : GoFloat → Bool
  | .inf _ => true
  | _ => false

/-- True exactly on finite values. -/
def GoFloat.isFiniteB : GoFloat → Bool
  | .finite _ => true
  | _ => false

/-- Go `float64` multiplication on the model. -/
def GoFloat.mul : GoFloat → GoFloat → GoFloat
  | .nan, _ => .nan
  | _, .nan => .nan
  | .inf s, .inf t => .inf (s == t)
  | .inf s, .finite q => if q = 0 then .nan else if 0 < q then .inf s else .inf (!s)
  | .finite q, .inf s => if q = 0 then .nan else if 0 < q then .inf s else .inf (!s)
  | .finite a, .finite b => .finite (a * b)

/-- Go `float64` addition on the model. -/
def GoFloat.add : GoFloat → GoFloat → GoFloat
  | .nan, _ => .nan
  | _, .nan => .nan
  | .inf s, .inf t => if s = t then .inf s else .nan
  | .inf s, .finite _ => .inf s
  | .finite _, .inf t => .inf t
  | .finite a, .finite b => .finite (a + b)

instance : Mul GoFloat := ⟨GoFloat.mul⟩

instance : Add GoFloat := ⟨GoFloat.add⟩

/-! ### Bit extraction

Modelled from the spec: the bit accessors of the external CAN library
(`go.einride.tech/can`, `Data.UnsignedBitsLittleEndian` and friends) are not
part of this repository; they are modelled here after §4.2 of the spec (pack
the 8 payload bytes into one 64-bit value, shift the start bit to the least
significant position, mask `length` bits, optionally sign-extend as
two's-complement).  Behaviour at out-of-range start/length is declared
undefined by the spec and is not relied on by any claim. -/

/-- Little-endian packing: byte 0 is least significant. -/
def packLittleEndian (d : List Nat) : Nat :=
  (List.range 8).foldl (fun acc i => acc + d.getD i 0 % 256 * 2 ^ (8 * i)) 0

/-- Big-endian packing: byte 0 is most significant. -/
def packBigEndian (d : List Nat) : Nat :=
  (List.range 8).foldl (fun acc i => acc + d.getD i 0 % 256 * 2 ^ (8 * (7 - i))) 0

/-- `Data.UnsignedBitsLittleEndian(start, length)`. -/
def unsignedBitsLittleEndian (d : List Nat) (start length : Nat) : Nat :=
  (packLittleEndian d >>> start) % 2 ^ length

/-- Two's-complement reading of an unsigned `length`-bit value. -/
def asSigned (u length : Nat) : Int :=
  if u < 2 ^ (length - 1) then (u : Int) else (u : Int) - 2 ^ length

/-- `Data.SignedBitsLittleEndian(start, length)`. -/
def signedBitsLittleEndian (d : List Nat) (start length : Nat) : Int :=
  asSigned (unsignedBitsLittleEndian d start length) length

/-- Bit-index inversion used by the big-endian accessors. -/
def invertEndian (i : Nat) : Nat := 8 * (i / 8) + (7 - i % 8)

/-- `Data.UnsignedBitsBigEndian(start, length)`; the least-significant-bit
index is computed in wrapping 8-bit arithmetic as in the library. -/
def unsignedBitsBigEndian (d : List Nat) (start length : Nat) : Nat :=
  (packBigEndian d >>> ((invertEndian (start % 256) + 1 + 256 - length % 256) % 256)) % 2 ^ length

/-- `Data.SignedBitsBigEndian(start, length)`. -/
def signedBitsBigEndian (d : List Nat) (start length : Nat) : Int :=
  asSigned (unsignedBitsBigEndian d start length) length

/-! ### Data model (`SignalDef`, `FrameDef`, `SignalValue`, `RawFrame`, `Store`) -/

/-- `EndianLittle` constant. -/
def EndianLittle : String := "little"

/-- `EndianBig` constant. -/
def EndianBig : String := "big"

/-- `SignalDef` from the source (core file variant; `StartBit`/`BitLength`
are `uint8`, kept in range by the CSV parser). -/
structure SignalDef where
  FrameID : Nat
  FrameName : String
  SignalName : String
  StartBit : Nat
  BitLength : Nat
  Endianness : String
  Signed : Bool
  Factor : GoFloat
  Offset : GoFloat
  Unit : String
  Direction : String
  Comment : String
deriving DecidableEq

/-- `FrameDef` from the source. -/
structure FrameDef where
  ID : Nat
  Name : String
  Signals : List SignalDef
deriving DecidableEq

/-- `SignalValue` from the source; `UpdatedAt` timestamps are abstract `Nat`s. -/
structure SignalValue where
  Name : String
  Value : GoFloat
  Unit : String
  FrameID : String
  FrameName : String
  UpdatedAt : Nat
  Dir : String
  Comment : String
deriving DecidableEq

/-- `RawFrame` from the source. -/
structure RawFrame where
  TS : Nat
  ID : String
  DLC : Nat
  DataHex : String
  DataASCII : String
deriving DecidableEq

/-- `Store`: the Go `map[string]SignalValue` is modelled as an association
list with unique keys (updates overwrite in place), the raw-frame slice as a
list.  The mutex only serialises access and has no sequential content. -/
structure Store where
  signals : List (String × SignalValue)
  rawFrames : List RawFrame
  rawCapacity : Nat
deriving DecidableEq

/-- `NewStore(rawCapacity)`. -/
def NewStore (rawCapacity : Nat) : Store :=
  { signals := [], rawFrames := [], rawCapacity := rawCapacity }

/-- Raw-frame capacity used by the program (`can-web/main.go` trims at the
literal 200; the core file takes it as the construction parameter). -/
def defaultRawCapacity : Nat := 200

/-! ### Go string helpers (ASCII fragment, sufficient for the schema data) -/

/-- ASCII `strings.ToLower` on one character. -/
def goToLowerChar (c : Char) : Char :=
  if 'A' ≤ c ∧ c ≤ 'Z' then Char.ofNat (c.toNat + 32) else c

/-- `strings.ToLower` (ASCII fragment). -/
def goToLower (s : String) : String := String.mk (s.data.map goToLowerChar)

/-- Whitespace as trimmed by `strings.TrimSpace` (ASCII fragment). -/
def isGoSpace (c : Char) : Bool := c = ' ' ∨ c = '\t' ∨ c = '\n' ∨ c = '\r'

/-- `strings.TrimSpace` (ASCII fragment). -/
def goTrim (s : String) : String :=
  String.mk (((s.data.dropWhile isGoSpace).reverse.dropWhile isGoSpace).reverse)

/-- Go string `<` (lexicographic by character), as a computable Bool. -/
def strLtB : List Char → List Char → Bool
  | [], [] => false
  | [], _ :: _ => true
  | _ :: _, [] => false
  | a :: as, b :: bs => if a < b then true else if b < a then false else strLtB as bs

/-! ### Rendering helpers for raw frames -/

/-- Uppercase hexadecimal digit. -/
def hexDigitChar (n : Nat) : Char :=
  if n < 10 then Char.ofNat ('0'.toNat + n) else Char.ofNat ('A'.toNat + (n - 10))

/-- Hex digits of `n`, most significant first (fuel-based so that it reduces;
16 digits cover every `uint64`). -/
def hexCharsAux : Nat → Nat → List Char
  | 0, _ => []
  | _ + 1, 0 => []
  | fuel + 1, n => hexCharsAux fuel (n / 16) ++ [hexDigitChar (n % 16)]

/-- `fmt.Sprintf("0x%03X", n)`. -/
def hexId (n : Nat) : String :=
  let cs := hexCharsAux 16 n
  "0x" ++ String.mk (List.replicate (3 - cs.length) '0' ++ cs)

/-- `strings.ToUpper(hex.EncodeToString(bs))`. -/
def bytesToUpperHex (bs : List Nat) : String :=
  String.mk (bs.foldr (fun b acc => hexDigitChar (b % 256 / 16) :: hexDigitChar (b % 256 % 16) :: acc) [])

/-- `safeASCII`: printable bytes verbatim, everything else as a dot. -/
def safeASCII (bs : List Nat) : String :=
  String.mk (bs.map fun c => if 32 ≤ c ∧ c ≤ 126 then Char.ofNat c else '.')

/-! ### Signal decoding (`decodeSignal`, `clampFinite`) -/

/-- `decodeSignal` from the core source file: switch on endianness, extract
the raw integer (zero in the default branch), then scale `raw*Factor+Offset`.
No clamping happens here. -/
def decodeSignal (d : List Nat) (s : SignalDef) : GoFloat :=
  let raw : GoFloat :=
    if s.Endianness = EndianLittle then
      if s.Signed then .finite ((signedBitsLittleEndian d s.StartBit s.BitLength : Int) : ℚ)
      else .finite ((unsignedBitsLittleEndian d s.StartBit s.BitLength : Nat) : ℚ)
    else if s.Endianness = EndianBig then
      if s.Signed then .finite ((signedBitsBigEndian d s.StartBit s.BitLength : Int) : ℚ)
      else .finite ((unsignedBitsBigEndian d s.StartBit s.BitLength : Nat) : ℚ)
    else .finite 0
  raw * s.Factor + s.Offset

/-- `clampFinite`: NaN and infinities become `0`, finite values pass through. -/
def clampFinite (v : GoFloat) : GoFloat :=
  if v.isNaN || v.isInf then .finite 0 else v

/-! ### Store operations -/

/-- The map key used by `UpsertSignal`: `FrameName + "." + Name`. -/
def sigKey (v : SignalValue) : String := v.FrameName ++ "." ++ v.Name

/-- Association-list update with Go-map semantics: overwrite the entry with
this key in place, or append a fresh one. -/
def upsertList (k : String) (v : SignalValue) : List (String × SignalValue) → List (String × SignalValue)
  | [] => [(k, v)]
  | (k', v') :: rest => if k' = k then (k, v) :: rest else (k', v') :: upsertList k v rest

/-- `Store.UpsertSignal` (named `UpdateSignal` in `can-web/main.go`). -/
def Store.UpsertSignal (s : Store) (v : SignalValue) : Store :=
  { s with signals := upsertList (sigKey v) v s.signals }

/-- `Store.PushRaw`: append, then if the length exceeds the capacity keep the
last `rawCapacity` entries (`s.rawFrames[len-cap:]`). -/
def Store.PushRaw (s : Store) (r : RawFrame) : Store :=
  let raw := s.rawFrames ++ [r]
  if s.rawCapacity < raw.length then
    { s with rawFrames := raw.drop (raw.length - s.rawCapacity) }
  else
    { s with rawFrames := raw }

/-- The total order realised by `Snapshot`'s `sort.Slice` comparator
(`less i j = FrameName_i < FrameName_j`, ties broken by `Name_i < Name_j`):
`sigLeB a b` is `¬ less b a`. -/
def sigLeB (a b : SignalValue) : Bool :=
  if strLtB a.FrameName.data b.FrameName.data then true
  else if strLtB b.FrameName.data a.FrameName.data then false
  else !(strLtB b.Name.data a.Name.data)

/-- Propositional form of `sigLeB`. -/
def sigLe (a b : SignalValue) : Prop := sigLeB a b = true

instance : DecidableRel sigLe := fun a b => Bool.decEq (sigLeB a b) true

/-- `Store.Snapshot`: the signal values sorted by the comparator above, plus
a copy of the raw-frame FIFO in insertion order.  Go map iteration order is
arbitrary but the sort makes the output deterministic. -/
def Store.Snapshot (s : Store) : List SignalValue × List RawFrame :=
  (List.insertionSort sigLe (s.signals.map Prod.snd), s.rawFrames)

/-! ### Ingestion loop body (`RunCANReader`, per received frame) -/

/-- One received CAN frame: identifier, declared length, 8 data bytes. -/
structure Frame where
  id : Nat
  length : Nat
  data : List Nat
deriving DecidableEq

/-- Go map lookup on the compiled frame table. -/
def lookupFrame (fid : Nat) (t : List (Nat × FrameDef)) : Option FrameDef :=
  (t.find? (fun p => p.1 == fid)).map Prod.snd

/-- The `RawFrame` record built by `RunCANReader` for every received frame
(`time.Now()` is the abstract timestamp `now`). -/
def mkRawRecord (now : Nat) (f : Frame) : RawFrame :=
  { TS := now, ID := hexId f.id, DLC := f.length,
    DataHex := bytesToUpperHex (f.data.take f.length),
    DataASCII := safeASCII (f.data.take f.length) }

/-- The `SignalValue` committed by `RunCANReader` for one signal of a mapped
frame: the decoded value clamped to finite, with metadata copied verbatim. -/
def signalUpdate (now fid : Nat) (fname : String) (d : List Nat) (sig : SignalDef) : SignalValue :=
  { Name := sig.SignalName, Value := clampFinite (decodeSignal d sig), Unit := sig.Unit,
    FrameID := hexId fid, FrameName := fname, UpdatedAt := now,
    Dir := sig.Direction, Comment := sig.Comment }

/-- The body of `RunCANReader` for one received frame: push the raw record
unconditionally; if the identifier is mapped, decode and upsert every signal. -/
def processFrame (defs : List (Nat × FrameDef)) (now : Nat) (store : Store) (f : Frame) : Store :=
  let st1 := store.PushRaw (mkRawRecord now f)
  match lookupFrame f.id defs with
  | none => st1
  | some fd =>
      fd.Signals.foldl (fun st sig => st.UpsertSignal (signalUpdate now f.id fd.Name f.data sig)) st1

/-! ### CSV schema loader (`LoadCANMap`, core source file variant)

The loader is modelled from the point where `encoding/csv` has already split
the file into records (`records : List (List String)`); opening the file and
CSV splitting are external I/O.  Error strings follow the source's messages
(without the wrapped sub-error text). -/

/-- The required columns, in the order the source checks them. -/
def reqColumns : List String :=
  ["direction", "frame_id", "frame_name", "dlc", "signal_name", "start_bit",
   "bit_length", "endianness", "signed", "factor", "offset", "unit", "comment"]

/-- The header map `h`: each trimmed column name maps to its index; a later
duplicate overwrites an earlier one, so the last index wins. -/
def headerIndex (header : List String) (k : String) : Option Nat :=
  (List.range header.length).foldl
    (fun acc i => if goTrim (header.getD i "") = k then some i else acc) none

/-- The row accessor `get`: a missing key yields index 0 (Go map zero value,
unreachable once the required-column check passed); an index beyond the row
yields `""`; the field is trimmed. -/
def getField (header row : List String) (k : String) : String :=
  let idx := (headerIndex header k).getD 0
  if row.length ≤ idx then "" else goTrim (row.getD idx "")

/-- Decimal digit string to number. -/
def digitsToNat (cs : List Char) : Nat :=
  cs.foldl (fun a c => a * 10 + (c.toNat - '0'.toNat)) 0

/-- Hexadecimal digit value (both cases, as `strconv.ParseUint` base 16). -/
def hexDigitVal (c : Char) : Option Nat :=
  if '0' ≤ c ∧ c ≤ '9' then some (c.toNat - '0'.toNat)
  else if 'a' ≤ c ∧ c ≤ 'f' then some (c.toNat - 'a'.toNat + 10)
  else if 'A' ≤ c ∧ c ≤ 'F' then some (c.toNat - 'A'.toNat + 10)
  else none

/-- Hex digit string to number, `none` on a non-digit. -/
def hexDigitsToNat (cs : List Char) : Option Nat :=
  cs.foldl (fun acc c => match acc, hexDigitVal c with
    | some a, some v => some (a * 16 + v)
    | _, _ => none) (some 0)

/-- `strconv.ParseUint(s, 10, bits)`: nonempty, decimal digits only, in
range (a sign prefix is not permitted; range overflow is an error). -/
def parseUintDec (s : String) (bits : Nat) : Option Nat :=
  if s.data ≠ [] ∧ s.data.all Char.isDigit then
    let v := digitsToNat s.data
    if v < 2 ^ bits then some v else none
  else none

/-- `strconv.ParseUint(s, 16, bits)`. -/
def parseUintHex (s : String) (bits : Nat) : Option Nat :=
  if s.data = [] then none
  else match hexDigitsToNat s.data with
    | some v => if v < 2 ^ bits then some v else none
    | none => none

/-- `parseHexID`: trim, lower-case, strip one `0x` prefix, parse base-16
into 32 bits. -/
def parseHexID (s : String) : Option Nat :=
  let t := goToLower (goTrim s)
  let u : List Char := match t.data with
    | '0' :: 'x' :: rest => rest
    | cs => cs
  parseUintHex (String.mk u) 32

/-- `strconv.ParseFloat(s, 64)`, modelled exactly over ℚ: optional sign,
decimal mantissa with optional fraction, optional decimal exponent, plus the
case-insensitive special forms `inf`/`infinity` (optionally signed) and `nan`.
Values are kept as exact rationals (real `ParseFloat` rounds to the nearest
`float64` and errors on range overflow; no claim depends on either). -/
def parseFloat (s : String) : Option GoFloat :=
  let cs := (goToLower s).data
  let (neg, rest) : Bool × List Char :=
    match cs with
    | '+' :: r => (false, r)
    | '-' :: r => (true, r)
    | r => (false, r)
  if cs = ['n', 'a', 'n'] then some .nan
  else if rest = ['i', 'n', 'f'] ∨ rest = ['i', 'n', 'f', 'i', 'n', 'i', 't', 'y'] then
    some (.inf (!neg))
  else
    let intPart := rest.takeWhile Char.isDigit
    let rest2 := rest.dropWhile Char.isDigit
    let (fracPart, rest3) : List Char × List Char :=
      match rest2 with
      | '.' :: r => (r.takeWhile Char.isDigit, r.dropWhile Char.isDigit)
      | r => ([], r)
    if intPart.length + fracPart.length = 0 then none
    else
      let mant : ℚ := (digitsToNat (intPart ++ fracPart) : ℚ) / (10 : ℚ) ^ fracPart.length
      let signed : ℚ := if neg then -mant else mant
      match rest3 with
      | [] => some (.finite signed)
      | 'e' :: r =>
        let (eneg, r2) : Bool × List Char :=
          match r with
          | '+' :: r' => (false, r')
          | '-' :: r' => (true, r')
          | r' => (false, r')
        if r2 ≠ [] ∧ r2.all Char.isDigit then
          let e := digitsToNat r2
          some (.finite (if eneg then signed / (10 : ℚ) ^ e else signed * (10 : ℚ) ^ e))
        else none
      | _ => none

/-- Parse one data row into a `SignalDef`, aborting on the first bad field in
the source's order (`frame_id`, `start_bit`, `bit_length`, `factor`,
`offset`; `endianness` and `signed` can never fail). -/
def parseRow (header : List String) (row : List String) : Except String SignalDef :=
  let get := getField header row
  match parseHexID (get "frame_id") with
  | none => .error "bad frame_id"
  | some frameID =>
  match parseUintDec (get "start_bit") 8 with
  | none => .error "bad start_bit"
  | some startBit =>
  match parseUintDec (get "bit_length") 8 with
  | none => .error "bad bit_length"
  | some bitLen =>
  match parseFloat (get "factor") with
  | none => .error "bad factor"
  | some factor =>
  match parseFloat (get "offset") with
  | none => .error "bad offset"
  | some offset =>
  .ok { FrameID := frameID, FrameName := get "frame_name", SignalName := get "signal_name",
        StartBit := startBit, BitLength := bitLen,
        Endianness := goToLower (get "endianness"),
        Signed := goToLower (get "signed") = "true",
        Factor := factor, Offset := offset, Unit := get "unit",
        Direction := goToLower (get "direction"), Comment := get "comment" }

/-- Traverse rows left to right, aborting on the first parse error — the
source's single loop, with the pure accumulation split off into
`buildFrames`. -/
def mapExcept (f : α → Except String β) : List α → Except String (List β)
  | [] => .ok []
  | a :: l =>
    match f a with
    | .error e => .error e
    | .ok b =>
      match mapExcept f l with
      | .error e => .error e
      | .ok bs => .ok (b :: bs)

/-- Association-list insert with Go-map semantics on the frame table. -/
def insertFrame (k : Nat) (v : FrameDef) : List (Nat × FrameDef) → List (Nat × FrameDef)
  | [] => [(k, v)]
  | (k', v') :: rest => if k' = k then (k, v) :: rest else (k', v') :: insertFrame k v rest

/-- One row's accumulation step: fetch the map entry (zero `FrameDef` when
absent), re-initialise it whenever its `ID` is 0 — the source's sentinel for
"no definition yet" — and append the signal. -/
def stepFrame (frames : List (Nat × FrameDef)) (s : SignalDef) : List (Nat × FrameDef) :=
  let fd := (lookupFrame s.FrameID frames).getD { ID := 0, Name := "", Signals := [] }
  let fd := if fd.ID = 0 then { ID := s.FrameID, Name := s.FrameName, Signals := [] } else fd
  insertFrame s.FrameID { fd with Signals := fd.Signals ++ [s] } frames

/-- Accumulate all parsed rows into the frame table. -/
def buildFrames : List SignalDef → List (Nat × FrameDef) → List (Nat × FrameDef)
  | [], acc => acc
  | s :: rest, acc => buildFrames rest (stepFrame acc s)

/-- Signal order within a frame: ascending start bit. -/
def byStartBit (a b : SignalDef) : Prop := a.StartBit ≤ b.StartBit

instance : DecidableRel byStartBit := fun a b => Nat.decLe a.StartBit b.StartBit

/-- The final pass of `LoadCANMap`: sort every frame's signals by start bit. -/
def sortFrames (frames : List (Nat × FrameDef)) : List (Nat × FrameDef) :=
  frames.map (fun p => (p.1, { p.2 with Signals := List.insertionSort byStartBit p.2.Signals }))

/-- `LoadCANMap` on the CSV records: fewer than two records is an error; a
missing required column is an error; any row parse failure aborts; otherwise
the accumulated, per-frame-sorted table is returned. -/
def LoadCANMap (records : List (List String)) : Except String (List (Nat × FrameDef)) :=
  if records.length < 2 then .error "csv has no data rows"
  else
    let header := records.headD []
    match reqColumns.find? (fun k => (headerIndex header k).isNone) with
    | some k => .error ("missing required column: " ++ k)
    | none =>
      match mapExcept (parseRow header) (records.drop 1) with
      | .error e => .error e
      | .ok sigs => .ok (sortFrames (buildFrames sigs []))

/-- Project a frame's display name and signal names out of a compile result
(avoids comparing rational factors when evaluating concrete schemas). -/
def frameSummary (r : Except String (List (Nat × FrameDef))) (fid : Nat) : Option (String × List String) :=
  match r with
  | .error _ => none
  | .ok t => (lookupFrame fid t).map (fun fd => (fd.Name, fd.Signals.map SignalDef.SignalName))

/-! ### Concrete inputs used by the scenario claims and witnesses -/

/-- The payload `[0x10, 0x27, 0, 0, 0, 0, 0, 0]` of the spec's compile
scenario. -/
def c300Payload : List Nat := [0x10, 0x27, 0, 0, 0, 0, 0, 0]

/-- The signal of the spec's compile scenario: `frame_id=0x300`,
`start_bit=0`, `bit_length=16`, little-endian, unsigned, factor 0.1,
offset 0. -/
def c300Sig : SignalDef :=
  { FrameID := 0x300, FrameName := "ENGINE", SignalName := "rpm",
    StartBit := 0, BitLength := 16, Endianness := "little", Signed := false,
    Factor := .finite (1 / 10), Offset := .finite 0,
    Unit := "rpm", Direction := "rx", Comment := "" }

/-- An all-zero 8-byte payload. -/
def zeroPayload : List Nat := [0, 0, 0, 0, 0, 0, 0, 0]

/-- A signal whose endianness is neither `little` nor `big`, with a nonzero
offset. -/
def sigMid : SignalDef :=
  { FrameID := 0x300, FrameName := "F", SignalName := "S",
    StartBit := 0, BitLength := 8, Endianness := "middle", Signed := false,
    Factor := .finite 1, Offset := .finite 5,
    Unit := "", Direction := "rx", Comment := "" }

/-- As `sigMid` but with offset 0. -/
def sigMidZero : SignalDef :=
  { FrameID := 0x300, FrameName := "F", SignalName := "S",
    StartBit := 0, BitLength := 8, Endianness := "middle", Signed := false,
    Factor := .finite 1, Offset := .finite 0,
    Unit := "", Direction := "rx", Comment := "" }

/-- A well-formed little-endian signal whose factor is `NaN` (the pathological
input that makes the scaled result non-finite). -/
def sigNaNFactor : SignalDef :=
  { FrameID := 0x100, FrameName := "F", SignalName := "S",
    StartBit := 0, BitLength := 8, Endianness := "little", Signed := false,
    Factor := .nan, Offset := .finite 0,
    Unit := "", Direction := "rx", Comment := "" }

/-- The schema header row, with all required columns. -/
def csvHeader : List String :=
  ["direction", "frame_id", "frame_name", "dlc", "signal_name", "start_bit",
   "bit_length", "endianness", "signed", "factor", "offset", "unit", "comment"]

/-- A header missing the required `dlc` column. -/
def csvHeaderNoDlc : List String :=
  ["direction", "frame_id", "frame_name", "signal_name", "start_bit",
   "bit_length", "endianness", "signed", "factor", "offset", "unit", "comment"]

/-- First schema row with `frame_id = 0x0`, frame name `A`, signal `s1`. -/
def zeroRow1 : List String :=
  ["rx", "0x0", "A", "8", "s1", "0", "8", "little", "false", "1", "0", "", ""]

/-- Second schema row with `frame_id = 0x0`, frame name `B`, signal `s2`. -/
def zeroRow2 : List String :=
  ["rx", "0x0", "B", "8", "s2", "8", "8", "little", "false", "1", "0", "", ""]

/-- A schema whose two data rows share the legitimate frame identifier 0. -/
def zeroIdRecords : List (List String) := [csvHeader, zeroRow1, zeroRow2]

/-- A data row whose `factor` field does not parse. -/
def badFactorRow : List String :=
  ["rx", "0x10", "A", "8", "s1", "0", "8", "little", "false", "oops", "0", "", ""]

/-- A `SignalValue` for frame name `A`, signal name `x`. -/
def vAx : SignalValue :=
  { Name := "x", Value := .finite 1, Unit := "", FrameID := "0x001",
    FrameName := "A", UpdatedAt := 0, Dir := "rx", Comment := "" }

/-- A `SignalValue` for frame name `A`, signal name `y`. -/
def vAy : SignalValue :=
  { Name := "y", Value := .finite 2, Unit := "", FrameID := "0x001",
    FrameName := "A", UpdatedAt := 0, Dir := "rx", Comment := "" }

/-- A `SignalValue` for frame name `B`, signal name `x`. -/
def vBx : SignalValue :=
  { Name := "x", Value := .finite 3, Unit := "", FrameID := "0x002",
    FrameName := "B", UpdatedAt := 0, Dir := "rx", Comment := "" }

/-- A store holding the three example signals keyed `B.x`, `A.y`, `A.x`. -/
def exampleStore : Store :=
  { signals := [("B.x", vBx), ("A.y", vAy), ("A.x", vAx)],
    rawFrames := [], rawCapacity := defaultRawCapacity }

/-- 201 distinct raw-frame records, one more than the default capacity. -/
def witnessPushes : List RawFrame :=
  (List.range 201).map (fun i => { TS := i, ID := "", DLC := 0, DataHex := "", DataASCII := "" })

/-- A frame with an identifier (0x7FF) not covered by the example schema. -/
def strayFrame : Frame := { id := 0x7FF, length := 2, data := [65, 66, 0, 0, 0, 0, 0, 0] }

/-- Two `SignalValue`s sharing the key `F.x` but carrying different values. -/
def upsertV1 : SignalValue :=
  { Name := "x", Value := .finite 1, Unit := "", FrameID := "0x010",
    FrameName := "F", UpdatedAt := 0, Dir := "rx", Comment := "" }

/-- The later of the two `F.x` values. -/
def upsertV2 : SignalValue :=
  { Name := "x", Value := .finite 2, Unit := "", FrameID := "0x010",
    FrameName := "F", UpdatedAt := 1, Dir := "rx", Comment := "" }

/-! ### Helper lemmas -/

theorem GoFloat.finite_mul_finite (a b : ℚ) :
    (GoFloat.finite a) * (GoFloat.finite b) = .finite (a * b) := rfl

theorem GoFloat.finite_add_finite (a b : ℚ) :
    (GoFloat.finite a) + (GoFloat.finite b) = .finite (a + b) := rfl

/-- C1: decoding the payload `[0x10,0x27,0,0,0,0,0,0]` with a little-endian
unsigned signal at start bit 0, length 16, factor 0.1, offset 0 extracts the
raw integer 10000 (0x2710) and scales it to exactly 1000. -/
theorem decode_scenario_0x300 :
    unsignedBitsLittleEndian c300Payload 0 16 = 10000 ∧
    decodeSignal c300Payload c300Sig = GoFloat.finite 1000 := by
  constructor
  · decide
  · have h : unsignedBitsLittleEndian c300Payload 0 16 = 10000 := by decide
    show GoFloat.finite ((unsignedBitsLittleEndian c300Payload 0 16 : ℚ)) *
        GoFloat.finite (1 / 10) + GoFloat.finite 0 = GoFloat.finite 1000
    rw [h, GoFloat.finite_mul_finite, GoFloat.finite_add_finite]
    norm_num

/-- C2 counterexample: a signal whose endianness is `"middle"` (neither
`little` nor `big`), factor 1 and offset 5 decodes to 5, not to zero — the
default branch zeroes only the raw integer, the offset is still added. -/
theorem decode_unknownEndian_cex :
    decodeSignal zeroPayload sigMid = GoFloat.finite 5 ∧
    GoFloat.finite 5 ≠ GoFloat.finite 0 := by
  constructor
  · show GoFloat.finite 0 * GoFloat.finite 1 + GoFloat.finite 5 = GoFloat.finite 5
    rw [GoFloat.finite_mul_finite, GoFloat.finite_add_finite]
    norm_num
  · decide

/-- C2 (amended): for a signal whose endianness is neither `little` nor
`big`, the extracted raw integer is zero and `decodeSignal` returns
`0*factor+offset`; in particular the result is zero whenever the offset is
zero and the factor is finite, but not for arbitrary factor and offset. -/
theorem decode_unknownEndian (d : List Nat) (s : SignalDef)
    (h1 : s.Endianness ≠ EndianLittle) (h2 : s.Endianness ≠ EndianBig) :
    decodeSignal d s = GoFloat.finite 0 * s.Factor + s.Offset ∧
    (∀ q : ℚ, s.Factor = .finite q → s.Offset = .finite 0 →
      decodeSignal d s = .finite 0) := by
  have hd : decodeSignal d s = GoFloat.finite 0 * s.Factor + s.Offset := by
    unfold decodeSignal
    rw [if_neg h1, if_neg h2]
  refine ⟨hd, fun q hf ho => ?_⟩
  rw [hd, hf, ho, GoFloat.finite_mul_finite, GoFloat.finite_add_finite]
  norm_num

/-- C2 witness: with endianness `"middle"`, factor 1 and offset 0 the decoded
value is zero. -/
theorem decode_unknownEndian_witness :
    decodeSignal zeroPayload sigMidZero = GoFloat.finite 0 :=
  (decode_unknownEndian zeroPayload sigMidZero (by decide) (by decide)).2 1 rfl rfl

/-- C3: the value committed by the reader loop for a signal (the `Value`
field of the `SignalValue` it upserts) is zero when the scaled result
`raw*factor+offset` is NaN or infinite, and the scaled result itself
otherwise. -/
theorem signalUpdate_clampFinite (now fid : Nat) (fname : String) (d : List Nat) (sig : SignalDef) :
    (((decodeSignal d sig).isNaN = true ∨ (decodeSignal d sig).isInf = true) →
      (signalUpdate now fid fname d sig).Value = GoFloat.finite 0) ∧
    ((decodeSignal d sig).isNaN = false → (decodeSignal d sig).isInf = false →
      (signalUpdate now fid fname d sig).Value = decodeSignal d sig) := by
  constructor
  · intro h
    show clampFinite (decodeSignal d sig) = GoFloat.finite 0
    unfold clampFinite
    rcases h with h | h <;> simp [h]
  · intro h1 h2
    show clampFinite (decodeSignal d sig) = decodeSignal d sig
    unfold clampFinite
    simp [h1, h2]

/-- C3 witness: with a NaN factor the scaled result is NaN and the committed
value is zero. -/
theorem signalUpdate_clampFinite_witness :
    (signalUpdate 0 0x100 "F" zeroPayload sigNaNFactor).Value = GoFloat.finite 0 :=
  (signalUpdate_clampFinite 0 0x100 "F" zeroPayload sigNaNFactor).1 (Or.inl (by decide))

/-- C10: a CSV input with fewer than two records (empty, or a lone header)
makes `LoadCANMap` fail with the `csv has no data rows` error instead of
returning an empty frame table. -/
theorem LoadCANMap_tooFewRecords (records : List (List String))
    (h : records.length < 2) :
    LoadCANMap records = .error "csv has no data rows" := by
  unfold LoadCANMap
  rw [if_pos h]

/-- C10 witness: the header-only input. -/
theorem LoadCANMap_tooFewRecords_witness :
    LoadCANMap [csvHeader] = .error "csv has no data rows" :=
  LoadCANMap_tooFewRecords [csvHeader] (by decide)

/-- C4: compilation is all-or-nothing — if a required column is missing from
the header or some data row fails to parse, `LoadCANMap` returns an error, so
no (partial) frame table is ever produced. -/
theorem LoadCANMap_allOrNothing (header : List String) (rows : List (List String))
    (h : reqColumns.any (fun k => (headerIndex header k).isNone) = true ∨
         ∃ row ∈ rows, ∃ e, parseRow header row = .error e) :
    ∃ e, LoadCANMap (header :: rows) = .error e := by
  unfold LoadCANMap
  by_cases hlen : (header :: rows).length < 2
  · rw [if_pos hlen]
    exact ⟨_, rfl⟩
  · rw [if_neg hlen]
    simp only [List.headD_cons, List.drop_succ_cons, List.drop_zero]
    rcases hfind : reqColumns.find? (fun k => (headerIndex header k).isNone) with _ | k
    · have hmiss : ¬ (reqColumns.any (fun k => (headerIndex header k).isNone) = true) := by
        intro hx
        rcases List.any_eq_true.mp hx with ⟨k, hk, hkn⟩
        have : (reqColumns.find? (fun k => (headerIndex header k).isNone)).isSome :=
          List.find?_isSome.mpr ⟨k, hk, hkn⟩
        rw [hfind] at this
        exact Bool.noConfusion this
      rcases h with h | ⟨row, hrow, e, herr⟩
      · exact absurd h hmiss
      · have hmap : ∃ e, mapExcept (parseRow header) rows = .error e := by
          clear hmiss hfind hlen
          induction rows with
          | nil => cases hrow
          | cons a l ih =>
            unfold mapExcept
            rcases ha : parseRow header a with ea | b
            · exact ⟨ea, rfl⟩
            · rcases List.mem_cons.mp hrow with rfl | hmem
              · rw [ha] at herr
                exact Except.noConfusion herr
              · rcases ih hmem with ⟨e', he'⟩
                rw [he']
                exact ⟨e', rfl⟩
        rcases hmap with ⟨e', he'⟩
        rw [he']
        exact ⟨e', rfl⟩
    · exact ⟨_, rfl⟩

/-- C4 witness: a header missing the `dlc` column, and a row whose `factor`
does not parse under the complete header, each abort the compile. -/
theorem LoadCANMap_allOrNothing_witness :
    (∃ e, LoadCANMap (csvHeaderNoDlc :: [zeroRow1]) = .error e) ∧
    (∃ e, LoadCANMap (csvHeader :: [badFactorRow]) = .error e) :=
  ⟨LoadCANMap_allOrNothing csvHeaderNoDlc [zeroRow1] (Or.inl (by decide)),
   LoadCANMap_allOrNothing csvHeader [badFactorRow]
     (Or.inr ⟨badFactorRow, by decide, "bad factor", rfl⟩)⟩

/-- C5 (code bug): with two rows sharing the legitimate identifier
`frame_id = 0x0` (names `A` then `B`), the compiled frame's display name is
`B` — the last row's, not the first's — and the first row's signal has been
discarded: the `fd.ID == 0` sentinel re-initialises the accumulating
`FrameDef` on every row of frame 0. -/
theorem LoadCANMap_frameIdZero_lastRowWins :
    frameSummary (LoadCANMap zeroIdRecords) 0 = some ("B", ["s2"]) ∧
    ("B", ["s2"]) ≠ ("A", ["s1", "s2"]) := by
  constructor
  · decide
  · decide

/-- Dropping after an append of an already-dropped list merges the drops. -/
theorem drop_append_drop {α : Type _} (X Y : List α) (a b : Nat) (h : a ≤ X.length) :
    ((X.drop a) ++ Y).drop b = (X ++ Y).drop (a + b) := by
  rw [List.drop_append_eq_append_drop, List.drop_append_eq_append_drop,
    List.drop_drop, List.length_drop]
  have h2 : b - (X.length - a) = a + b - X.length := by omega
  rw [h2]

/-- One `PushRaw` in drop form, plus the untouched fields. -/
theorem PushRaw_step (s : Store) (r : RawFrame) :
    (s.PushRaw r).rawFrames =
      (s.rawFrames ++ [r]).drop (s.rawFrames.length + 1 - s.rawCapacity) ∧
    (s.PushRaw r).rawCapacity = s.rawCapacity ∧
    (s.PushRaw r).signals = s.signals := by
  unfold Store.PushRaw
  have hlen1 : (s.rawFrames ++ [r]).length = s.rawFrames.length + 1 := by simp
  by_cases hc : s.rawCapacity < (s.rawFrames ++ [r]).length
  · rw [if_pos hc]
    refine ⟨?_, rfl, rfl⟩
    rw [hlen1]
  · rw [if_neg hc]
    refine ⟨?_, rfl, rfl⟩
    rw [hlen1] at hc
    have h0 : s.rawFrames.length + 1 - s.rawCapacity = 0 := by omega
    rw [h0, List.drop_zero]

/-- Folding `PushRaw` over a store whose FIFO is within capacity leaves the
FIFO equal to the capacity-suffix of everything ever pushed, and never touches
the capacity or the signal map. -/
theorem PushRaw_foldl (pushes : List RawFrame) : ∀ (s : Store),
    s.rawFrames.length ≤ s.rawCapacity →
    (pushes.foldl Store.PushRaw s).rawFrames =
      (s.rawFrames ++ pushes).drop (s.rawFrames.length + pushes.length - s.rawCapacity) ∧
    (pushes.foldl Store.PushRaw s).rawCapacity = s.rawCapacity ∧
    (pushes.foldl Store.PushRaw s).signals = s.signals := by
  induction pushes with
  | nil =>
    intro s hs
    simp only [List.foldl_nil]
    refine ⟨?_, trivial, trivial⟩
    have h0 : s.rawFrames.length + List.length ([] : List RawFrame) - s.rawCapacity = 0 := by
      simp only [List.length_nil]
      omega
    rw [h0, List.drop_zero, List.append_nil]
  | cons r rest ih =>
    intro s hs
    obtain ⟨h1, h2, h3⟩ := PushRaw_step s r
    have hlen' : (s.PushRaw r).rawFrames.length ≤ (s.PushRaw r).rawCapacity := by
      rw [h1, h2, List.length_drop]
      simp only [List.length_append, List.length_cons, List.length_nil]
      omega
    obtain ⟨g1, g2, g3⟩ := ih (s.PushRaw r) hlen'
    simp only [List.foldl_cons]
    refine ⟨?_, by rw [g2, h2], by rw [g3, h3]⟩
    rw [g1, h1, h2, List.length_drop]
    have hXlen : (s.rawFrames ++ [r]).length = s.rawFrames.length + 1 := by simp
    rw [drop_append_drop _ _ _ _ (by rw [hXlen]; omega)]
    rw [List.append_assoc, List.singleton_append]
    congr 1
    rw [hXlen]
    simp only [List.length_cons]
    omega

/-- C6: starting from a store whose FIFO respects its capacity (true of every
store the API can produce), pushing `capacity + k` records leaves exactly
`capacity` records, in FIFO order, namely the `capacity` most recently pushed
ones (`pushes.drop k`); the capacity itself never changes. -/
theorem PushRaw_window (s : Store) (pushes : List RawFrame) (k : Nat)
    (hinv : s.rawFrames.length ≤ s.rawCapacity)
    (hlen : pushes.length = s.rawCapacity + k) :
    (pushes.foldl Store.PushRaw s).rawFrames = pushes.drop k ∧
    (pushes.foldl Store.PushRaw s).rawFrames.length = s.rawCapacity ∧
    (pushes.foldl Store.PushRaw s).rawCapacity = s.rawCapacity := by
  obtain ⟨h1, h2, h3⟩ := PushRaw_foldl pushes s hinv
  have hmain : (pushes.foldl Store.PushRaw s).rawFrames = pushes.drop k := by
    rw [h1, List.drop_append_eq_append_drop]
    have hnil : s.rawFrames.drop (s.rawFrames.length + pushes.length - s.rawCapacity) = [] :=
      List.drop_eq_nil_of_le (by omega)
    rw [hnil, List.nil_append]
    congr 1
    omega
  refine ⟨hmain, ?_, h2⟩
  rw [hmain, List.length_drop]
  omega

/-- C6 witness: 201 pushes into a fresh store of the default capacity 200
leave the 200 most recent records. -/
theorem PushRaw_window_witness :
    (witnessPushes.foldl Store.PushRaw (NewStore defaultRawCapacity)).rawFrames =
      witnessPushes.drop 1 ∧
    (witnessPushes.foldl Store.PushRaw (NewStore defaultRawCapacity)).rawFrames.length =
      (NewStore defaultRawCapacity).rawCapacity ∧
    (witnessPushes.foldl Store.PushRaw (NewStore defaultRawCapacity)).rawCapacity =
      (NewStore defaultRawCapacity).rawCapacity :=
  PushRaw_window (NewStore defaultRawCapacity) witnessPushes 1 (by decide)
    (by simp [witnessPushes, NewStore, defaultRawCapacity])

theorem strLtB_asymm : ∀ as bs : List Char, strLtB as bs = true → strLtB bs as = false := by
  intro as
  induction as with
  | nil =>
    intro bs h
    cases bs with
    | nil => simp [strLtB] at h
    | cons b bs => simp [strLtB]
  | cons a as ih =>
    intro bs h
    cases bs with
    | nil => simp [strLtB] at h
    | cons b bs =>
      simp only [strLtB] at h ⊢
      by_cases h1 : a < b
      · rw [if_neg (lt_asymm h1), if_pos h1]
      · rw [if_neg h1] at h
        by_cases h2 : b < a
        · rw [if_pos h2] at h
          exact Bool.noConfusion h
        · rw [if_neg h2] at h
          rw [if_neg h2, if_neg h1]
          exact ih bs h

theorem strLtB_conn : ∀ as bs : List Char, strLtB as bs = false → strLtB bs as = false → as = bs := by
  intro as
  induction as with
  | nil =>
    intro bs h1 h2
    cases bs with
    | nil => rfl
    | cons b bs => simp [strLtB] at h1
  | cons a as ih =>
    intro bs h1 h2
    cases bs with
    | nil => simp [strLtB] at h2
    | cons b bs =>
      simp only [strLtB] at h1 h2
      by_cases hab : a < b
      · rw [if_pos hab] at h1
        exact Bool.noConfusion h1
      · by_cases hba : b < a
        · rw [if_pos hba] at h2
          exact Bool.noConfusion h2
        · rw [if_neg hab, if_neg hba] at h1
          rw [if_neg hba, if_neg hab] at h2
          have hae : a = b := le_antisymm (not_lt.mp hba) (not_lt.mp hab)
          rw [hae, ih bs h1 h2]

theorem strLtB_trans : ∀ as bs cs : List Char,
    strLtB as bs = true → strLtB bs cs = true → strLtB as cs = true := by
  intro as
  induction as with
  | nil =>
    intro bs cs h1 h2
    cases bs with
    | nil => simp [strLtB] at h1
    | cons b bs =>
      cases cs with
      | nil => simp [strLtB] at h2
      | cons c cs => simp [strLtB]
  | cons a as ih =>
    intro bs cs h1 h2
    cases bs with
    | nil => simp [strLtB] at h1
    | cons b bs =>
      cases cs with
      | nil => simp [strLtB] at h2
      | cons c cs =>
        simp only [strLtB] at h1 h2 ⊢
        by_cases hab : a < b
        · by_cases hbc : b < c
          · rw [if_pos (lt_trans hab hbc)]
          · by_cases hcb : c < b
            · rw [if_neg hbc, if_pos hcb] at h2
              exact Bool.noConfusion h2
            · have hbe : b = c := le_antisymm (not_lt.mp hcb) (not_lt.mp hbc)
              rw [if_pos (hbe ▸ hab)]
        · by_cases hba : b < a
          · rw [if_neg hab, if_pos hba] at h1
            exact Bool.noConfusion h1
          · have hae : a = b := le_antisymm (not_lt.mp hba) (not_lt.mp hab)
            rw [if_neg hab, if_neg hba] at h1
            by_cases hbc : b < c
            · rw [if_pos (hae ▸ hbc)]
            · by_cases hcb : c < b
              · rw [if_neg hbc, if_pos hcb] at h2
                exact Bool.noConfusion h2
              · rw [if_neg hbc, if_neg hcb] at h2
                rw [if_neg (hae ▸ hbc), if_neg (hae ▸ hcb)]
                exact ih bs cs h1 h2

theorem strLtB_false_trans (x y z : List Char)
    (h1 : strLtB x y = false) (h2 : strLtB y z = false) : strLtB x z = false := by
  by_cases h3 : strLtB x z = true
  · by_cases h4 : strLtB z y = true
    · have := strLtB_trans x z y h3 h4
      rw [h1] at this
      exact Bool.noConfusion this
    · have h4f : strLtB z y = false := Bool.eq_false_iff.mpr h4
      have hyz : y = z := strLtB_conn y z h2 h4f
      rw [← hyz] at h3
      rw [h1] at h3
      exact Bool.noConfusion h3
  · exact Bool.eq_false_iff.mpr h3

theorem sigLe_total : ∀ a b : SignalValue, sigLe a b ∨ sigLe b a := by
  intro a b
  unfold sigLe sigLeB
  by_cases h1 : strLtB a.FrameName.data b.FrameName.data = true
  · left
    rw [if_pos h1]
  · by_cases h2 : strLtB b.FrameName.data a.FrameName.data = true
    · right
      rw [if_pos h2]
    · by_cases h3 : strLtB b.Name.data a.Name.data = true
      · right
        rw [if_neg h2, if_neg h1]
        simp [strLtB_asymm _ _ h3]
      · left
        rw [if_neg h1, if_neg h2]
        simp [Bool.eq_false_iff.mpr h3]

theorem sigLe_trans : ∀ a b c : SignalValue, sigLe a b → sigLe b c → sigLe a c := by
  intro a b c hab hbc
  unfold sigLe sigLeB at hab hbc ⊢
  by_cases h1 : strLtB a.FrameName.data b.FrameName.data = true
  · by_cases h2 : strLtB b.FrameName.data c.FrameName.data = true
    · rw [if_pos (strLtB_trans _ _ _ h1 h2)]
    · by_cases h3 : strLtB c.FrameName.data b.FrameName.data = true
      · rw [if_pos h3] at hbc
        rw [if_neg h2] at hbc
        exact Bool.noConfusion hbc
      · have hbce : b.FrameName.data = c.FrameName.data :=
          strLtB_conn _ _ (Bool.eq_false_iff.mpr h2) (Bool.eq_false_iff.mpr h3)
        rw [if_pos (hbce ▸ h1)]
  · by_cases h1' : strLtB b.FrameName.data a.FrameName.data = true
    · rw [if_neg h1, if_pos h1'] at hab
      exact Bool.noConfusion hab
    · have habe : a.FrameName.data = b.FrameName.data :=
        strLtB_conn _ _ (Bool.eq_false_iff.mpr h1) (Bool.eq_false_iff.mpr h1')
      rw [if_neg h1, if_neg h1'] at hab
      by_cases h2 : strLtB b.FrameName.data c.FrameName.data = true
      · rw [if_pos (habe ▸ h2)]
      · by_cases h3 : strLtB c.FrameName.data b.FrameName.data = true
        · rw [if_neg h2, if_pos h3] at hbc
          exact Bool.noConfusion hbc
        · have hbce : b.FrameName.data = c.FrameName.data :=
            strLtB_conn _ _ (Bool.eq_false_iff.mpr h2) (Bool.eq_false_iff.mpr h3)
          rw [if_neg h2, if_neg h3] at hbc
          have hac : strLtB a.FrameName.data c.FrameName.data = false := by
            rw [← hbce]
            exact Bool.eq_false_iff.mpr h1
          have hca : strLtB c.FrameName.data a.FrameName.data = false := by
            rw [← hbce]
            exact Bool.eq_false_iff.mpr h1'
          rw [if_neg (Bool.eq_false_iff.mp hac), if_neg (Bool.eq_false_iff.mp hca)]
          simp only [Bool.not_eq_true'] at hab hbc ⊢
          exact strLtB_false_trans _ _ _ hbc hab

/-- C7: `Snapshot` returns the signal values sorted by frame name then signal
name (the order realised by the source's comparator), and the raw frames in
insertion order (oldest first); on the concrete store holding keys
`B.x`, `A.y`, `A.x` the returned order is `A.x`, `A.y`, `B.x`. -/
theorem Snapshot_sorted (s : Store) :
    List.Sorted sigLe (s.Snapshot).1 ∧
    (s.Snapshot).2 = s.rawFrames ∧
    (exampleStore.Snapshot).1 = [vAx, vAy, vBx] := by
  refine ⟨?_, rfl, by decide⟩
  haveI : IsTotal SignalValue sigLe := ⟨sigLe_total⟩
  haveI : IsTrans SignalValue sigLe := ⟨sigLe_trans⟩
  exact List.sorted_insertionSort sigLe _

theorem filter_eq_nil_of_not_mem_keys (k : String) :
    ∀ l : List (String × SignalValue), k ∉ l.map Prod.fst →
    l.filter (fun p => p.1 == k) = [] := by
  intro l
  induction l with
  | nil => intro _; rfl
  | cons p rest ih =>
    intro h
    obtain ⟨k', v'⟩ := p
    simp only [List.map_cons, List.mem_cons] at h
    push_neg at h
    have hne : (k' == k) = false := beq_eq_false_iff_ne.mpr (fun he => h.1 (he ▸ rfl))
    simp only [List.filter_cons, hne]
    exact ih h.2

theorem mem_keys_upsertList (k : String) (v : SignalValue) :
    ∀ l : List (String × SignalValue), ∀ a, a ∈ (upsertList k v l).map Prod.fst →
    a ∈ l.map Prod.fst ∨ a = k := by
  intro l
  induction l with
  | nil =>
    intro a ha
    simp only [upsertList, List.map_cons, List.map_nil, List.mem_singleton] at ha
    exact Or.inr ha
  | cons p rest ih =>
    intro a ha
    obtain ⟨k', v'⟩ := p
    simp only [upsertList] at ha
    by_cases hk : k' = k
    · rw [if_pos hk] at ha
      simp only [List.map_cons, List.mem_cons] at ha ⊢
      rcases ha with rfl | ha
      · exact Or.inr rfl
      · exact Or.inl (Or.inr ha)
    · rw [if_neg hk] at ha
      simp only [List.map_cons, List.mem_cons] at ha ⊢
      rcases ha with rfl | ha
      · exact Or.inl (Or.inl rfl)
      · rcases ih a ha with h | h
        · exact Or.inl (Or.inr h)
        · exact Or.inr h

theorem nodup_keys_upsertList (k : String) (v : SignalValue) :
    ∀ l : List (String × SignalValue), (l.map Prod.fst).Nodup →
    ((upsertList k v l).map Prod.fst).Nodup := by
  intro l
  induction l with
  | nil => intro _; simp [upsertList]
  | cons p rest ih =>
    intro hnd
    obtain ⟨k', v'⟩ := p
    simp only [List.map_cons, List.nodup_cons] at hnd
    simp only [upsertList]
    by_cases hk : k' = k
    · rw [if_pos hk]
      simp only [List.map_cons, List.nodup_cons]
      exact ⟨hk ▸ hnd.1, hnd.2⟩
    · rw [if_neg hk]
      simp only [List.map_cons, List.nodup_cons]
      refine ⟨fun hmem => ?_, ih hnd.2⟩
      rcases mem_keys_upsertList k v rest k' hmem with h | h
      · exact hnd.1 h
      · exact hk h

theorem filter_upsertList_self (k : String) (v : SignalValue) :
    ∀ l : List (String × SignalValue), (l.map Prod.fst).Nodup →
    (upsertList k v l).filter (fun p => p.1 == k) = [(k, v)] := by
  intro l
  induction l with
  | nil =>
    intro _
    simp [upsertList, List.filter_cons]
  | cons p rest ih =>
    intro hnd
    obtain ⟨k', v'⟩ := p
    simp only [List.map_cons, List.nodup_cons] at hnd
    simp only [upsertList]
    by_cases hk : k' = k
    · rw [if_pos hk]
      simp only [List.filter_cons, beq_self_eq_true, if_pos]
      rw [filter_eq_nil_of_not_mem_keys k rest (hk ▸ hnd.1)]
    · rw [if_neg hk]
      have hne : (k' == k) = false := beq_eq_false_iff_ne.mpr hk
      simp only [List.filter_cons, hne]
      exact ih hnd.2

/-- C8: after two upserts with the same key `frameName.signalName` and
different values, the signal map holds exactly one entry under that key, and
it carries the second value; an upsert never adds a second entry for an
existing key. -/
theorem UpsertSignal_lastWriteWins (s : Store) (v1 v2 : SignalValue)
    (hnd : (s.signals.map Prod.fst).Nodup)
    (hkey : sigKey v1 = sigKey v2)
    (_hval : v1.Value ≠ v2.Value) :
    ((s.UpsertSignal v1).UpsertSignal v2).signals.filter (fun p => p.1 == sigKey v1) =
      [(sigKey v1, v2)] := by
  show (upsertList (sigKey v2) v2 (upsertList (sigKey v1) v1 s.signals)).filter
      (fun p => p.1 == sigKey v1) = [(sigKey v1, v2)]
  rw [hkey]
  exact filter_upsertList_self (sigKey v2) v2 _ (nodup_keys_upsertList (sigKey v2) v1 _ hnd)

/-- C8 witness: two upserts of the key `F.x` into a fresh store leave the
single entry `(F.x, second value)`. -/
theorem UpsertSignal_lastWriteWins_witness :
    (((NewStore defaultRawCapacity).UpsertSignal upsertV1).UpsertSignal upsertV2).signals.filter
      (fun p => p.1 == sigKey upsertV1) = [(sigKey upsertV1, upsertV2)] :=
  UpsertSignal_lastWriteWins (NewStore defaultRawCapacity) upsertV1 upsertV2
    (by decide) rfl (by decide)

/-- C9: a received frame whose identifier is not in the compiled schema
changes the store exactly by one `PushRaw` of its raw record — the signal map
is untouched. -/
theorem processFrame_unmapped (defs : List (Nat × FrameDef)) (now : Nat) (store : Store) (f : Frame)
    (h : lookupFrame f.id defs = none) :
    processFrame defs now store f = store.PushRaw (mkRawRecord now f) ∧
    (processFrame defs now store f).signals = store.signals := by
  have h1 : processFrame defs now store f = store.PushRaw (mkRawRecord now f) := by
    unfold processFrame
    rw [h]
  refine ⟨h1, ?_⟩
  rw [h1]
  exact (PushRaw_step store (mkRawRecord now f)).2.2

/-- C9 witness: a stray frame received against the empty schema. -/
theorem processFrame_unmapped_witness :
    processFrame [] 7 (NewStore defaultRawCapacity) strayFrame =
      (NewStore defaultRawCapacity).PushRaw (mkRawRecord 7 strayFrame) ∧
    (processFrame [] 7 (NewStore defaultRawCapacity) strayFrame).signals =
      (NewStore defaultRawCapacity).signals :=
  processFrame_unmapped [] 7 (NewStore defaultRawCapacity) strayFrame rfl
